import Mathlib

/-!
Verification of the stream-framed (stdio) transport of the go-mcp
repository, `stdio.go`. The file contains two revisions of the transport,
separated in the source by a document separator; where the two revisions
differ (the `Send` write path, `Sessions`, `stop`/`Stop`) both are
embedded, with the suffix `V1` for the first revision and `V2` for the
second. The read loop (`stdIOSession.Messages`), the framing of `Send`
and `ID` are identical in both revisions and are embedded once.

The JSON codec (`encoding/json`) is external to the repository, so the
embedding is parameterised over a `marshal`/`decode` pair; theorems that
need properties of the codec (round-trip, no raw newline in the output)
take them as hypotheses.
-/

namespace GoMcp

/-! ### Byte streams

`io.Reader` is modelled as the full sequence of bytes the reader will
deliver, followed by either a clean end of stream (`ioErr = none`,
`ReadString` reports `io.EOF`) or a lower-level I/O error
(`ioErr = some e`). -/

structure ByteStream where
  data : List Char
  ioErr : Option String
deriving DecidableEq, Repr

/-- Outcome of `bufio.Reader.ReadString`: either `io.EOF` or another
lower-level error. -/
inductive ReadErr where
  | eof : ReadErr
  | ioError (e : String) : ReadErr
deriving DecidableEq, Repr

/-- Split a byte sequence at the first newline, keeping the newline with
the first half, as `bufio.Reader.ReadString` does with its delimiter.
`none` means no newline is present. -/
def splitAtNL : List Char → Option (List Char × List Char)
  | [] => none
  | c :: cs =>
    if c = '\n' then some ([c], cs)
    else (splitAtNL cs).map fun p => (c :: p.1, p.2)

/-- Model of `bufio.Reader.ReadString('\n')`: returns the bytes up to and
including the first newline, or the unterminated remainder together with
`io.EOF` (clean end of stream) or the reader's error. -/
def readString (s : ByteStream) : (List Char × Option ReadErr) × ByteStream :=
  match splitAtNL s.data with
  | some (line, rest) => ((line, none), ⟨rest, s.ioErr⟩)
  | none =>
    ((s.data,
      some (match s.ioErr with
        | none => ReadErr.eof
        | some e => ReadErr.ioError e)),
     ⟨[], none⟩)

/-- Model of `strings.TrimSuffix(line, "\n")`: drop one trailing newline
if present. -/
def trimSuffixNL (line : List Char) : List Char :=
  if line.getLast? = some '\n' then line.dropLast else line

theorem splitAtNL_eq_none {l : List Char} : splitAtNL l = none ↔ '\n' ∉ l := by
  induction l with
  | nil => simp [splitAtNL]
  | cons c cs ih =>
    rw [splitAtNL]
    split
    next hc =>
      subst hc
      simp
    next hc =>
      simp only [Option.map_eq_none', ih, List.mem_cons, not_or]
      constructor
      · intro h
        exact ⟨fun hh => hc hh.symm, h⟩
      · intro h
        exact h.2

theorem splitAtNL_some {l line rest : List Char}
    (h : splitAtNL l = some (line, rest)) :
    ∃ pre, line = pre ++ ['\n'] ∧ '\n' ∉ pre ∧ l = pre ++ '\n' :: rest := by
  induction l generalizing line rest with
  | nil => simp [splitAtNL] at h
  | cons c cs ih =>
    rw [splitAtNL] at h
    split at h
    next hc =>
      subst hc
      simp only [Option.some.injEq, Prod.mk.injEq] at h
      exact ⟨[], by simp [← h.1, ← h.2]⟩
    next hc =>
      rw [Option.map_eq_some'] at h
      obtain ⟨⟨line', rest'⟩, hsp, heq⟩ := h
      obtain ⟨pre, hline, hnl, hl⟩ := ih hsp
      simp only [Prod.mk.injEq] at heq
      refine ⟨c :: pre, ?_, ?_, ?_⟩
      · simp [← heq.1, hline]
      · simp only [List.mem_cons, not_or]
        exact ⟨fun hh => hc hh.symm, hnl⟩
      · simp [← heq.2, hl]

theorem splitAtNL_length {l line rest : List Char}
    (h : splitAtNL l = some (line, rest)) : rest.length < l.length := by
  obtain ⟨pre, _, _, hl⟩ := splitAtNL_some h
  subst hl
  simp only [List.length_append, List.length_cons]
  omega

theorem splitAtNL_append {pre : List Char} (rest : List Char)
    (h : '\n' ∉ pre) :
    splitAtNL (pre ++ '\n' :: rest) = some (pre ++ ['\n'], rest) := by
  induction pre with
  | nil => simp [splitAtNL]
  | cons c cs ih =>
    simp only [List.mem_cons, not_or] at h
    have hc : ¬c = '\n' := fun hh => h.1 hh.symm
    rw [List.cons_append, splitAtNL, if_neg hc, ih h.2]
    rfl

theorem trimSuffixNL_append_nl (pre : List Char) :
    trimSuffixNL (pre ++ ['\n']) = pre := by
  simp [trimSuffixNL]

/-! ### The read loop (`stdIOSession.Messages`)

Identical in both revisions of the file. The loop reads one line at a
time with `reader.ReadString('\n')`; a read error ends the loop (silently
on `io.EOF`, after logging otherwise); the trailing newline is trimmed;
an empty line is skipped; a line `json.Unmarshal` rejects is logged and
skipped; otherwise the decoded message is yielded.

The model below is of the executions in which the session's `done`
channel never fires (the `select` always takes the `lines` case) and the
consumer consumes the whole sequence (`yield` always returns `true`); the
interaction with `done` is modelled separately with the session state
machine. The decoder `json.Unmarshal` is external to the repository and
is a parameter. The result is the list of yielded messages together with
the list of emitted error-log entries. -/

/-- Entries the transport writes to its logger. -/
inductive LogEntry where
  | readError (e : String) : LogEntry
  | unmarshalError : LogEntry
  | sendClosedWhileWriting : LogEntry
  | sendClosedWhileSending : LogEntry
  | sendWriteError (e : String) : LogEntry
deriving DecidableEq, Repr

/-- Model of `stdIOSession.Messages`: the yielded messages and error-log
entries of a full, un-stopped run of the read loop over the stream
`s`. -/
def messagesLoop {Msg : Type} (decode : List Char → Option Msg)
    (s : ByteStream) : List Msg × List LogEntry :=
  match hs : splitAtNL s.data with
  | none =>
    -- ReadString returns an error: the unterminated remainder is dropped;
    -- io.EOF returns silently, any other error is logged first.
    (match s.ioErr with
      | none => ([], [])
      | some e => ([], [LogEntry.readError e]))
  | some (line, rest) =>
    -- lwe.line := strings.TrimSuffix(line, "\n")
    let lwe := trimSuffixNL line
    if lwe = [] then
      messagesLoop decode ⟨rest, s.ioErr⟩
    else
      match decode lwe with
      | none =>
        -- "failed to unmarshal message" is logged and the line skipped
        let r := messagesLoop decode ⟨rest, s.ioErr⟩
        (r.1, LogEntry.unmarshalError :: r.2)
      | some m =>
        let r := messagesLoop decode ⟨rest, s.ioErr⟩
        (m :: r.1, r.2)
termination_by s.data.length
decreasing_by
  all_goals exact splitAtNL_length hs

theorem messagesLoop_no_nl {Msg : Type} (decode : List Char → Option Msg)
    (s : ByteStream) (h : '\n' ∉ s.data) :
    messagesLoop decode s =
      (match s.ioErr with
        | none => ([], [])
        | some e => ([], [LogEntry.readError e])) := by
  rw [messagesLoop]
  rw [splitAtNL_eq_none.mpr h]

theorem messagesLoop_cons {Msg : Type} (decode : List Char → Option Msg)
    (pre rest : List Char) (e : Option String) (h : '\n' ∉ pre) :
    messagesLoop decode ⟨pre ++ '\n' :: rest, e⟩ =
      (if pre = [] then
        messagesLoop decode ⟨rest, e⟩
      else
        match decode pre with
        | none =>
          let r := messagesLoop decode ⟨rest, e⟩
          (r.1, LogEntry.unmarshalError :: r.2)
        | some m =>
          let r := messagesLoop decode ⟨rest, e⟩
          (m :: r.1, r.2)) := by
  rw [messagesLoop]
  rw [show splitAtNL (⟨pre ++ '\n' :: rest, e⟩ : ByteStream).data
        = some (pre ++ ['\n'], rest) from splitAtNL_append rest h]
  simp only [trimSuffixNL_append_nl]

/-! ### Spec-side view of the stream, for the arrival-order claim

The spec reads: the iterator yields "the decoded messages of the
stream's valid lines in exactly the order those lines appear". A line
of the stream is a newline-terminated segment (the framing rule makes
the newline the frame delimiter, so an unterminated trailing remainder
is not a line); a valid line is one that is non-empty after trimming
and that the decoder accepts. -/

/-- The newline-terminated lines of a byte sequence, in order, each
without its trailing newline. -/
def streamLines (l : List Char) : List (List Char) :=
  match hs : splitAtNL l with
  | none => []
  | some (line, rest) => trimSuffixNL line :: streamLines rest
termination_by l.length
decreasing_by
  all_goals exact splitAtNL_length hs

/-- Modelled from the spec: the decoded messages of the stream's valid
lines (non-empty, accepted by the decoder), in arrival order. -/
def validLineMessages {Msg : Type} (decode : List Char → Option Msg)
    (l : List Char) : List Msg :=
  (streamLines l).filterMap fun ln => if ln = [] then none else decode ln

/-! ### The write framing (`stdIOSession.Send`, both revisions)

Both revisions serialize with `json.Marshal` and append a single
newline: `msgBs = append(msgBs, '\n')`. The codec is a parameter; a
marshal failure is returned as the wrapped error. -/

/-- The bytes `Send` hands to the writer for a message, or the marshal
error it returns. -/
def sendFrame {Msg : Type} (marshal : Msg → Except String (List Char))
    (m : Msg) : Except String (List Char) :=
  match marshal m with
  | Except.error e => Except.error ("failed to marshal message: " ++ e)
  | Except.ok bs => Except.ok (bs ++ ['\n'])

/-! ### Session state and `stop` / `Stop` / `StopSession`

The session's channels are modelled by whether they are closed. Go's
`close` on an already-closed channel panics, which the model records. -/

structure SessionState where
  doneClosed : Bool
  closedClosed : Bool
deriving DecidableEq, Repr

/-- The state of the session the moment `NewStdIO` returns: both
channels freshly made, neither closed. -/
def newStdIOSession : SessionState :=
  { doneClosed := false, closedClosed := false }

inductive StopResult where
  | ok (st : SessionState) : StopResult
  | panicked : StopResult
deriving DecidableEq, Repr

/-- First revision, `stdIOSession.stop`: `close(s.done)`. Go panics on
closing an already-closed channel. -/
def stopV1 (st : SessionState) : StopResult :=
  if st.doneClosed then StopResult.panicked
  else StopResult.ok { st with doneClosed := true }

/-- Second revision, `stdIOSession.Stop`: `close(s.done)` followed by
`<-s.closed`. The close itself panics when `done` is already closed;
the subsequent receive blocks until the read loop or `Sessions` closes
`s.closed`, which does not change the channel states recorded here. -/
def stopV2 (st : SessionState) : StopResult :=
  if st.doneClosed then StopResult.panicked
  else StopResult.ok { st with doneClosed := true }

/-- Model of `stdIOSession.ID`: the constant session identifier. -/
def stdIOSessionID : String := "1"

/-- First revision, `StdIO.StopSession`: stops the inner session only
when the given identifier is the string `"1"`; any other identifier
falls through without touching the session. -/
def stopSession (sessID : String) (st : SessionState) : StopResult :=
  if sessID = "1" then stopV1 st else StopResult.ok st

/-! ### The `Send` write path, both revisions

`Send`'s goroutine performs the write and reports its result on the
buffered `errs` channel; the caller then blocks in a `select`. The
scenario of one call is described by:

* `writeRes`: the eventual fate of the `Write` call once it is issued —
  `none` if it never completes (stalled writer), `some none` success,
  `some (some e)` failure with error `e`;
* `ctxFired` (first revision only): whether `ctx.Done()` fires;
* `doneFired`: whether `s.done` is closed by the time the `select`
  resolves; in the second revision `doneAtGuard` additionally records
  whether it was already closed when the goroutine's guard ran.

Go's `select` picks uniformly among the ready cases, so a call is
modelled by the list of runs its possible executions produce. -/

inductive SendOutcome where
  | ret (e : Option String) : SendOutcome
  | blocked : SendOutcome
deriving DecidableEq, Repr

/-- One possible execution of a `Send` call: what it returns (or that it
never returns), whether the `Write` call on the writer was issued, and
what was logged. -/
structure SendRun where
  outcome : SendOutcome
  wroteIssued : Bool
  logs : List LogEntry
deriving DecidableEq, Repr

/-- First revision, `stdIOSession.Send(ctx, msg)`: the goroutine writes
unconditionally; the caller selects among `ctx.Done()`, `errs` and
`s.done`. Every ready case can be the one taken; with no ready case the
call blocks. Nothing is logged on this path in this revision. -/
def sendV1Runs {Msg : Type} (marshal : Msg → Except String (List Char))
    (m : Msg) (ctxFired doneFired : Bool)
    (writeRes : Option (Option String)) : List SendRun :=
  match marshal m with
  | Except.error e =>
    [{ outcome := SendOutcome.ret (some ("failed to marshal message: " ++ e)),
       wroteIssued := false, logs := [] }]
  | Except.ok _ =>
    let fromCtx : List SendRun :=
      if ctxFired then
        [{ outcome := SendOutcome.ret (some "context canceled"),
           wroteIssued := true, logs := [] }]
      else []
    let fromErrs : List SendRun :=
      match writeRes with
      | some (some e) =>
        [{ outcome := SendOutcome.ret (some ("failed to write message: " ++ e)),
           wroteIssued := true, logs := [] }]
      | some none =>
        [{ outcome := SendOutcome.ret none, wroteIssued := true, logs := [] }]
      | none => []
    let fromDone : List SendRun :=
      if doneFired then
        [{ outcome := SendOutcome.ret none, wroteIssued := true, logs := [] }]
      else []
    let outs := fromCtx ++ fromErrs ++ fromDone
    if outs = [] then
      [{ outcome := SendOutcome.blocked, wroteIssued := true, logs := [] }]
    else outs

/-- Second revision, `stdIOSession.Send(msg)`: the goroutine first
checks `s.done` (non-blocking select with a default case); if `done` is
already closed it logs a warning and returns without writing, so `errs`
never receives and the caller's `select` takes the `done` case,
logging another warning and returning nil. Otherwise the write is
issued; the caller selects between `errs` (logging on a write error)
and `s.done` (logging a warning, returning nil). There is no context
case: this revision's session `Send` takes no context. -/
def sendV2Runs {Msg : Type} (marshal : Msg → Except String (List Char))
    (m : Msg) (doneAtGuard doneAtSelect : Bool)
    (writeRes : Option (Option String)) : List SendRun :=
  match marshal m with
  | Except.error e =>
    [{ outcome := SendOutcome.ret (some ("failed to marshal message: " ++ e)),
       wroteIssued := false, logs := [] }]
  | Except.ok _ =>
    if doneAtGuard then
      -- the guard sees done closed: no write, two warnings, nil returned
      [{ outcome := SendOutcome.ret none, wroteIssued := false,
         logs := [LogEntry.sendClosedWhileWriting,
                  LogEntry.sendClosedWhileSending] }]
    else
      let fromErrs : List SendRun :=
        match writeRes with
        | some (some e) =>
          [{ outcome := SendOutcome.ret (some ("failed to write message: " ++ e)),
             wroteIssued := true, logs := [LogEntry.sendWriteError e] }]
        | some none =>
          [{ outcome := SendOutcome.ret none, wroteIssued := true, logs := [] }]
        | none => []
      let fromDone : List SendRun :=
        if doneAtSelect then
          [{ outcome := SendOutcome.ret none, wroteIssued := true,
             logs := [LogEntry.sendClosedWhileSending] }]
        else []
      let outs := fromErrs ++ fromDone
      if outs = [] then
        [{ outcome := SendOutcome.blocked, wroteIssued := true, logs := [] }]
      else outs

/-- Second revision, `StdIO.Send(ctx, msg)`: the context argument is
discarded (`func (s StdIO) Send(_ context.Context, msg JSONRPCMessage)`)
and the call forwards to the session's context-free `Send`, so the
cancellation signal cannot influence any execution. -/
def stdIOSendV2Runs {Msg : Type} (marshal : Msg → Except String (List Char))
    (m : Msg) (ctxFired doneAtGuard doneAtSelect : Bool)
    (writeRes : Option (Option String)) : List SendRun :=
  sendV2Runs marshal m doneAtGuard doneAtSelect writeRes

/-! ### `Sessions`, both revisions -/

/-- The result of a consumer ranging over `Sessions()`: the identifiers
of the sessions yielded to it, and whether the iteration has completed
(returned to the consumer) in a world where the session's `done` channel
fires iff `doneFired`. -/
structure SessionsRun where
  yields : List String
  completed : Bool
deriving DecidableEq, Repr

/-- First revision, `StdIO.Sessions`: the iterator body is just
`yield(s.sess)`; it returns immediately after the yield, whether or not
the session's `done` channel ever fires. -/
def sessionsV1Run (doneFired : Bool) : SessionsRun :=
  { yields := [stdIOSessionID], completed := true }

/-- Second revision, `StdIO.Sessions`: `yield(s.sess)` followed by
`<-s.sess.done`, with `defer close(s.closed)`. The iteration completes
only once `done` has fired, at which point the deferred close marks the
transport's `closed` channel. -/
def sessionsV2Run (doneFired : Bool) (st : SessionState) :
    SessionsRun × SessionState :=
  if doneFired then
    ({ yields := [stdIOSessionID], completed := true },
     { st with closedClosed := true })
  else
    ({ yields := [stdIOSessionID], completed := false }, st)

/-! ### A concrete codec for witnesses

`json.Marshal`/`json.Unmarshal` are external; the witnesses instantiate
the codec parameters with this small concrete codec on `Bool`. -/

def boolMarshal : Bool → Except String (List Char) :=
  fun b => Except.ok (if b then ['t', 'r', 'u', 'e'] else ['f'])

def boolDecode : List Char → Option Bool :=
  fun l =>
    if l = ['t', 'r', 'u', 'e'] then some true
    else if l = ['f'] then some false
    else none

/-! ### Lemmas about the read loop -/

theorem messagesLoop_cons_empty {Msg : Type} (decode : List Char → Option Msg)
    (rest : List Char) (e : Option String) :
    messagesLoop decode ⟨'\n' :: rest, e⟩ = messagesLoop decode ⟨rest, e⟩ := by
  have h := messagesLoop_cons decode [] rest e (by simp)
  simpa using h

theorem messagesLoop_cons_bad {Msg : Type} (decode : List Char → Option Msg)
    (pre rest : List Char) (e : Option String)
    (hnl : '\n' ∉ pre) (hne : pre ≠ []) (hd : decode pre = none) :
    messagesLoop decode ⟨pre ++ '\n' :: rest, e⟩ =
      ((messagesLoop decode ⟨rest, e⟩).1,
       LogEntry.unmarshalError :: (messagesLoop decode ⟨rest, e⟩).2) := by
  rw [messagesLoop_cons decode pre rest e hnl, if_neg hne, hd]

theorem messagesLoop_cons_good {Msg : Type} (decode : List Char → Option Msg)
    (pre rest : List Char) (e : Option String) (m : Msg)
    (hnl : '\n' ∉ pre) (hne : pre ≠ []) (hd : decode pre = some m) :
    messagesLoop decode ⟨pre ++ '\n' :: rest, e⟩ =
      (m :: (messagesLoop decode ⟨rest, e⟩).1,
       (messagesLoop decode ⟨rest, e⟩).2) := by
  rw [messagesLoop_cons decode pre rest e hnl, if_neg hne, hd]

theorem streamLines_no_nl {l : List Char} (h : '\n' ∉ l) :
    streamLines l = [] := by
  rw [streamLines, splitAtNL_eq_none.mpr h]

theorem streamLines_cons (pre rest : List Char) (h : '\n' ∉ pre) :
    streamLines (pre ++ '\n' :: rest) = pre :: streamLines rest := by
  rw [streamLines, splitAtNL_append rest h]
  simp only [trimSuffixNL_append_nl]

/-! ### Claim theorems -/

/-- C1: Framing round-trip. When the codec marshals `m` to `bs` —
non-empty and newline-free, as `encoding/json` output is — and decodes
`bs` back to `m`, `Send` frames exactly the encoding of `m` followed by
a single newline, and the read loop fed exactly that encoded line
yields a message equal to `m` and nothing else. -/
theorem framing_round_trip {Msg : Type}
    (marshal : Msg → Except String (List Char))
    (decode : List Char → Option Msg) (m : Msg) (bs : List Char)
    (hm : marshal m = Except.ok bs) (hne : bs ≠ []) (hnl : '\n' ∉ bs)
    (hrt : decode bs = some m) :
    sendFrame marshal m = Except.ok (bs ++ ['\n']) ∧
    messagesLoop decode ⟨bs ++ ['\n'], none⟩ = ([m], []) := by
  constructor
  · rw [sendFrame, hm]
  · rw [show (⟨bs ++ ['\n'], none⟩ : ByteStream)
          = ⟨bs ++ '\n' :: [], none⟩ from rfl,
      messagesLoop_cons_good decode bs [] none m hnl hne hrt,
      messagesLoop_no_nl decode ⟨[], none⟩ (by simp)]

/-- Witness for `framing_round_trip`: the concrete Bool codec and the
message `true`, encoded as the line `true\n`. -/
theorem framing_round_trip_witness :
    sendFrame boolMarshal true = Except.ok (['t', 'r', 'u', 'e'] ++ ['\n']) ∧
    messagesLoop boolDecode ⟨['t', 'r', 'u', 'e'] ++ ['\n'], none⟩ =
      ([true], []) :=
  framing_round_trip boolMarshal boolDecode true ['t', 'r', 'u', 'e']
    (by rfl) (by decide) (by decide) (by rfl)

/-- C2: the claim that a second `stop` does not re-close the done signal
and does not crash fails on the code: in both revisions `stop`/`Stop`
is an unguarded `close(s.done)`, and Go's `close` of an already-closed
channel panics. The first call does close the done signal; the second
panics instead of being a no-op. -/
theorem stop_twice_panics :
    stopV1 newStdIOSession =
      StopResult.ok { doneClosed := true, closedClosed := false } ∧
    stopV1 { doneClosed := true, closedClosed := false } =
      StopResult.panicked ∧
    stopV2 newStdIOSession =
      StopResult.ok { doneClosed := true, closedClosed := false } ∧
    stopV2 { doneClosed := true, closedClosed := false } =
      StopResult.panicked := by
  decide

/-- C3 counterexample: in the first revision, with the done signal
fired before `Send` is called and a write that fails, the write is
still issued (not a no-op, nothing logged) and the execution whose
`select` takes the `errs` case returns the write error to the caller. -/
theorem send_after_stop_can_error :
    ({ outcome := SendOutcome.ret (some "failed to write message: pipe closed"),
       wroteIssued := true, logs := [] } : SendRun) ∈
      sendV1Runs boolMarshal true false true (some (some "pipe closed")) := by
  decide

/-- C3 amended: in the second revision, a `Send` issued after stop has
fired (so the writer goroutine's guard sees the closed done channel) is
a logged no-op: no write is issued and no error is returned; and when
stop fires while `Send` is waiting on the write, the execution whose
`select` takes the done branch logs a warning and returns no error.
(A racing failed write may instead surface its error, and the first
revision issues the write unconditionally, as the counterexample
shows.) -/
theorem send_after_stop_noop_v2 {Msg : Type}
    (marshal : Msg → Except String (List Char)) (m : Msg) (bs : List Char)
    (hm : marshal m = Except.ok bs) (writeRes : Option (Option String)) :
    sendV2Runs marshal m true true writeRes =
      [{ outcome := SendOutcome.ret none, wroteIssued := false,
         logs := [LogEntry.sendClosedWhileWriting,
                  LogEntry.sendClosedWhileSending] }] ∧
    ({ outcome := SendOutcome.ret none, wroteIssued := true,
       logs := [LogEntry.sendClosedWhileSending] } : SendRun) ∈
      sendV2Runs marshal m false true writeRes := by
  constructor
  · unfold sendV2Runs
    rw [hm]
    simp
  · unfold sendV2Runs
    rw [hm]
    rcases writeRes with _ | r
    · simp
    · rcases r with _ | e <;> simp

/-- Witness for `send_after_stop_noop_v2`: the Bool codec, message
`true`, a write that would succeed. -/
theorem send_after_stop_noop_v2_witness :
    sendV2Runs boolMarshal true true true (some none) =
      [{ outcome := SendOutcome.ret none, wroteIssued := false,
         logs := [LogEntry.sendClosedWhileWriting,
                  LogEntry.sendClosedWhileSending] }] ∧
    ({ outcome := SendOutcome.ret none, wroteIssued := true,
       logs := [LogEntry.sendClosedWhileSending] } : SendRun) ∈
      sendV2Runs boolMarshal true false true (some none) :=
  send_after_stop_noop_v2 boolMarshal true ['t', 'r', 'u', 'e'] (by rfl)
    (some none)

/-- C4: a line the decoder rejects is logged and skipped: it is not
yielded, it does not end the sequence, and a subsequent well-formed
line is still decoded and yielded, the rest of the stream being
processed unchanged apart from the extra error-log entry. -/
theorem malformed_line_logged_skipped {Msg : Type}
    (decode : List Char → Option Msg) (bad good : List Char) (m : Msg)
    (rest : ByteStream)
    (hbad : decode bad = none) (hbne : bad ≠ []) (hbnl : '\n' ∉ bad)
    (hgood : decode good = some m) (hgne : good ≠ []) (hgnl : '\n' ∉ good) :
    messagesLoop decode
        ⟨bad ++ '\n' :: (good ++ '\n' :: rest.data), rest.ioErr⟩ =
      (m :: (messagesLoop decode rest).1,
       LogEntry.unmarshalError :: (messagesLoop decode rest).2) := by
  rw [messagesLoop_cons_bad decode bad _ rest.ioErr hbnl hbne hbad,
    messagesLoop_cons_good decode good rest.data rest.ioErr m hgnl hgne hgood]

/-- Witness for `malformed_line_logged_skipped`: the malformed line `x`
followed by the well-formed line `f` on an otherwise empty stream. -/
theorem malformed_line_logged_skipped_witness :
    messagesLoop boolDecode
        ⟨['x'] ++ '\n' :: (['f'] ++ '\n' :: ([] : List Char)), none⟩ =
      (false :: (messagesLoop boolDecode ⟨[], none⟩).1,
       LogEntry.unmarshalError :: (messagesLoop boolDecode ⟨[], none⟩).2) :=
  malformed_line_logged_skipped boolDecode ['x'] ['f'] false ⟨[], none⟩
    (by decide) (by decide) (by decide) (by decide) (by decide) (by decide)

/-- C5: when the next read returns end-of-stream or a lower-level I/O
error — the remaining bytes hold no newline, so `ReadString` cannot
return a complete line — the loop terminates: no message is yielded
from that point on, and the only log entry is the read error when the
error is not `io.EOF`. -/
theorem terminal_read_ends_messages {Msg : Type}
    (decode : List Char → Option Msg) (s : ByteStream)
    (h : '\n' ∉ s.data) :
    (messagesLoop decode s).1 = [] ∧
    (messagesLoop decode s).2 =
      (match s.ioErr with
        | none => []
        | some e => [LogEntry.readError e]) := by
  rw [messagesLoop_no_nl decode s h]
  cases s.ioErr <;> exact ⟨rfl, rfl⟩

/-- Witness for `terminal_read_ends_messages`: a stream whose remaining
byte is an unterminated fragment and whose reader then fails. -/
theorem terminal_read_ends_messages_witness :
    (messagesLoop boolDecode ⟨['x'], some "boom"⟩).1 = [] ∧
    (messagesLoop boolDecode ⟨['x'], some "boom"⟩).2 =
      [LogEntry.readError "boom"] :=
  terminal_read_ends_messages boolDecode ⟨['x'], some "boom"⟩ (by decide)

/-- C6 counterexample: the second revision's top-level `Send` discards
its context argument, so with the cancellation signal fired, the write
stalled and the session not stopped, the only possible execution blocks
— it does not return promptly with the cancellation failure. -/
theorem sendV2_ignores_cancellation :
    stdIOSendV2Runs boolMarshal true true false false none =
      [{ outcome := SendOutcome.blocked, wroteIssued := true, logs := [] }] := by
  decide

/-- C6 amended: the first revision's `Send` honors cancellation — when
the cancellation signal has fired, the write has not completed and the
session is not stopped, its `select` has exactly one ready case and the
call returns the context's cancellation error instead of blocking; the
second revision's top-level `Send` discards the context and does not
(counterexample). -/
theorem sendV1_honors_cancellation {Msg : Type}
    (marshal : Msg → Except String (List Char)) (m : Msg) (bs : List Char)
    (hm : marshal m = Except.ok bs) :
    sendV1Runs marshal m true false none =
      [{ outcome := SendOutcome.ret (some "context canceled"),
         wroteIssued := true, logs := [] }] := by
  unfold sendV1Runs
  rw [hm]
  simp

/-- Witness for `sendV1_honors_cancellation` at the Bool codec. -/
theorem sendV1_honors_cancellation_witness :
    sendV1Runs boolMarshal true true false none =
      [{ outcome := SendOutcome.ret (some "context canceled"),
         wroteIssued := true, logs := [] }] :=
  sendV1_honors_cancellation boolMarshal true ['t', 'r', 'u', 'e'] (by rfl)

/-- C7 counterexample: in the first revision the iteration over
`Sessions` completes immediately after yielding the single session,
even though the session's done signal has not fired — the consumer does
not wait for the session's lifetime. -/
theorem sessionsV1_completes_without_done :
    (sessionsV1Run false).yields = [stdIOSessionID] ∧
    (sessionsV1Run false).completed = true := by
  decide

/-- C7 amended: both revisions yield exactly the one persistent
session; in the second revision the iteration completes exactly when
the done signal has fired (and then also closes the transport's closed
channel), while the first revision's iteration completes immediately
after the yield, as the counterexample shows. -/
theorem sessionsV2_single_blocking_session (doneFired : Bool)
    (st : SessionState) :
    (sessionsV2Run doneFired st).1.yields = [stdIOSessionID] ∧
    ((sessionsV2Run doneFired st).1.completed = true ↔ doneFired = true) := by
  cases doneFired <;> simp [sessionsV2Run]

/-- C8: arrival-order delivery — an un-stopped, fully consumed run of
the read loop yields exactly the decoded messages of the stream's valid
lines, in the order the lines appear on the stream: no message is
reordered, duplicated or dropped, apart from the skipped empty and
undecodable lines. -/
theorem messages_arrival_order {Msg : Type}
    (decode : List Char → Option Msg) (s : ByteStream) :
    (messagesLoop decode s).1 = validLineMessages decode s.data := by
  have H : ∀ n (l : List Char) (e : Option String), l.length ≤ n →
      (messagesLoop decode ⟨l, e⟩).1 = validLineMessages decode l := by
    intro n
    induction n with
    | zero =>
      intro l e hl
      have hnil : l = [] := List.length_eq_zero.mp (Nat.le_zero.mp hl)
      subst hnil
      rw [messagesLoop_no_nl decode ⟨[], e⟩ (by simp)]
      unfold validLineMessages
      rw [streamLines_no_nl (by simp)]
      cases e <;> rfl
    | succ n ih =>
      intro l e hl
      cases hsp : splitAtNL l with
      | none =>
        have hnl : '\n' ∉ l := splitAtNL_eq_none.mp hsp
        rw [messagesLoop_no_nl decode ⟨l, e⟩ hnl]
        unfold validLineMessages
        rw [streamLines_no_nl hnl]
        cases e <;> rfl
      | some p =>
        obtain ⟨line, rest⟩ := p
        obtain ⟨pre, hline, hnlpre, hl'⟩ := splitAtNL_some hsp
        subst hl'
        have hrest : rest.length ≤ n := by
          simp only [List.length_append, List.length_cons] at hl
          omega
        unfold validLineMessages
        rw [streamLines_cons pre rest hnlpre, List.filterMap_cons]
        by_cases hpre : pre = []
        · subst hpre
          simp only [List.nil_append]
          rw [messagesLoop_cons_empty decode rest e, ih rest e hrest]
          simp [validLineMessages]
        · cases hd : decode pre with
          | none =>
            rw [messagesLoop_cons_bad decode pre rest e hnlpre hpre hd,
              ih rest e hrest]
            simp [validLineMessages, if_neg hpre, hd]
          | some m =>
            rw [messagesLoop_cons_good decode pre rest e m hnlpre hpre hd,
              ih rest e hrest]
            simp [validLineMessages, if_neg hpre, hd]
  obtain ⟨l, e⟩ := s
  exact H l.length l e le_rfl

/-- C9: the session identifier is the constant string `"1"`, and
`StopSession` closes the done signal exactly when the supplied
identifier is `"1"` (on a session not yet stopped); every other
identifier is a silent no-op that leaves the session untouched. -/
theorem session_id_and_stop_session (sessID : String) (st : SessionState)
    (h : st.doneClosed = false) :
    stdIOSessionID = "1" ∧
    (sessID = "1" →
      stopSession sessID st = StopResult.ok { st with doneClosed := true }) ∧
    (sessID ≠ "1" → stopSession sessID st = StopResult.ok st) := by
  refine ⟨rfl, ?_, ?_⟩
  · intro hid
    simp [stopSession, stopV1, hid, h]
  · intro hid
    simp [stopSession, hid]

/-- Witness for `session_id_and_stop_session`: the identifier `"2"` on
a fresh session is a silent no-op. -/
theorem session_id_and_stop_session_witness :
    stdIOSessionID = "1" ∧
    ("2" = "1" →
      stopSession "2" newStdIOSession =
        StopResult.ok { newStdIOSession with doneClosed := true }) ∧
    ("2" ≠ "1" →
      stopSession "2" newStdIOSession = StopResult.ok newStdIOSession) :=
  session_id_and_stop_session "2" newStdIOSession (by rfl)

/-- C10: an empty line — empty after trimming its newline — is skipped
silently: nothing is yielded for it, nothing is logged, and the rest of
the stream is processed exactly as if the line were absent, so the
message sequence does not end there. -/
theorem empty_line_skipped {Msg : Type} (decode : List Char → Option Msg)
    (rest : ByteStream) :
    messagesLoop decode ⟨'\n' :: rest.data, rest.ioErr⟩ =
      messagesLoop decode rest :=
  messagesLoop_cons_empty decode rest.data rest.ioErr

end GoMcp
